import Mathlib

/-!
# Verification of the flate2 raw adapter layer (`src/raw.rs`)

This file shallowly embeds the streaming-adapter core of the repository:
the shared pump loops `Stream::read` (raw.rs lines 196-241) and
`Stream::write` (raw.rs lines 243-274), and the four adapters built on
them (`EncoderWriter`, `EncoderReader`, `DecoderReader`, `DecoderWriter`).

Bytes are modelled as natural numbers, byte sequences as `List Nat`; the
adapter layer treats bytes opaquely, so nothing depends on an upper bound.
The native miniz engine is reached only through the function pointer `f`
that the Rust code passes to `Stream::read`/`Stream::write`; the embedding
keeps that shape and is parameterised by an engine step function.  Status
and flush constants come from the crate's `ffi` module (not under `src/`);
their values are the standard miniz/zlib ones named in the spec.
-/

/-- Modelled from the spec (§4.1/§6, `ffi` module not in src/): miniz status
code `MZ_OK`. -/
def MZ_OK : Int := 0

/-- Modelled from the spec (§4.1/§6): miniz status `MZ_STREAM_END`. -/
def MZ_STREAM_END : Int := 1

/-- Modelled from the spec (§4.1/§6): miniz status `MZ_DATA_ERROR`
(data-corruption, decode only). -/
def MZ_DATA_ERROR : Int := -3

/-- Modelled from the spec (§4.1/§6): miniz status `MZ_BUF_ERROR`
("output buffer too small", treated as progress). -/
def MZ_BUF_ERROR : Int := -5

/-- Modelled from the spec (§4.1): flush mode `MZ_NO_FLUSH`. -/
def MZ_NO_FLUSH : Int := 0

/-- Modelled from the spec (§4.1): flush mode `MZ_SYNC_FLUSH`. -/
def MZ_SYNC_FLUSH : Int := 2

/-- Modelled from the spec (§4.1): flush mode `MZ_FINISH`. -/
def MZ_FINISH : Int := 4

/-- The two error kinds that adapter calls can surface (spec §7):
`corrupt` is the data-integrity error built at raw.rs:235
(`io::Error::new(InvalidInput, "corrupt deflate stream")`); `ioErr` is an
upstream/downstream I/O error propagated verbatim by `try!`. -/
inductive Err where
  | corrupt : Err
  | ioErr : Err
deriving DecidableEq, Repr

/-- The visible part of the foreign `mz_stream` record: the running totals
the adapter code reads (`total_in` / `total_out`) plus the engine's opaque
internal state `state` (of type `σ`).  The in/out cursor fields
(`next_in`, `avail_in`, `next_out`, `avail_out`) only communicate the
arguments of one engine call and are passed directly to the step
function. -/
structure MzStream (σ : Type) where
  totalIn : Nat
  totalOut : Nat
  state : σ
deriving DecidableEq, Repr

/-- Result of one engine step: new opaque state, bytes consumed from
`next_in`, bytes written to `next_out`, and the returned status code. -/
structure StepRes (σ : Type) where
  state : σ
  consumed : Nat
  out : List Nat
  ret : Int
deriving DecidableEq, Repr

/-- An engine step function (the `f: unsafe extern fn(*mut mz_stream, c_int)
-> c_int` parameter of `Stream::read`/`Stream::write`): given the opaque
state, the `next_in` slice, `avail_out`, and the flush mode, produce one
step's result. -/
def EngineStep (σ : Type) : Type :=
  σ → List Nat → Nat → Int → StepRes σ

/-- Modelled from the spec (§6, the foreign call itself is not in src/):
calling `f(&mut stream, flush)` "mutates `handle`'s running totals and the
in/out cursors as side effects" — the totals advance by exactly the bytes
consumed and produced in this step.  Returns the updated stream, the bytes
written to `next_out`, and the status. -/
def stepStream (f : EngineStep σ) (mz : MzStream σ) (inp : List Nat)
    (availOut : Nat) (flush : Int) : MzStream σ × List Nat × Int :=
  let r := f mz.state inp availOut flush
  (⟨mz.totalIn + r.consumed, mz.totalOut + r.out.length, r.state⟩, r.out, r.ret)

/-- A pull-based byte source (`R: Read` in the source): a step function
from reader state and a maximum count to the new reader state and either
the bytes read (`some`, at most the requested count once capped by the
`take` adapter the source applies) or an I/O error (`none`). -/
def ReaderStep (ρ : Type) : Type :=
  ρ → Nat → ρ × Option (List Nat)

/-- A push-based byte sink (`W: Write` in the source, spec §6): `writeAll`
models `write_all` ("write all given bytes or fail"), `flushSink` models
`Write::flush`; `none` is an I/O error. -/
structure Sink (ω : Type) where
  writeAll : ω → List Nat → Option ω
  flushSink : ω → Option ω

/-- The mutable state threaded through `Stream::read`: the `mz_stream`,
the fixed-size staging buffer (`buf: Box<[u8]>`, its length `bufCap`, its
current contents `bufData`), the `pos`/`cap` cursors, and the upstream
reader. -/
structure ReadSt (σ ρ : Type) where
  mz : MzStream σ
  bufCap : Nat
  bufData : List Nat
  pos : Nat
  cap : Nat
  reader : ρ
deriving DecidableEq, Repr

/-- Successful return of `Stream::read`: `read` is the byte count returned
(`Ok(read)`), `out` the bytes the engine wrote into the caller's buffer in
the final iteration, `st` the updated state.  `lastRet` and `lastEof` are
observation fields recording the final loop iteration's engine status and
eof flag; they instrument the embedding and affect no behaviour. -/
structure ReadOk (σ ρ : Type) where
  read : Nat
  out : List Nat
  st : ReadSt σ ρ
  lastRet : Int
  lastEof : Bool
deriving DecidableEq, Repr

/-- Outcome of `Stream::read`: normal return, error return (`try!` or the
corrupt-stream error), a `panic!`, or fuel exhaustion of the loop. -/
inductive ReadRes (σ ρ : Type) where
  | ok : ReadOk σ ρ → ReadRes σ ρ
  | err : Err → ReadRes σ ρ
  | panicked : ReadRes σ ρ
  | diverge : ReadRes σ ρ
deriving DecidableEq, Repr

/-- Result of the refill step (raw.rs lines 202-207). -/
inductive RefillRes (σ ρ : Type) where
  | fail : RefillRes σ ρ
  | good : ReadSt σ ρ → Bool → RefillRes σ ρ

/-- raw.rs lines 202-207: if `*pos == *cap`, refill the staging buffer by
`*cap = try!(reader.take(buf.len() as u64).read(buf)); *pos = 0;
eof = *cap == 0`.  The `take (st.bufCap)` mirrors the `Read::take`
adapter capping the count at the buffer length. -/
def refillStep (rd : ReaderStep ρ) (st : ReadSt σ ρ) : RefillRes σ ρ :=
  if st.pos = st.cap then
    match rd st.reader st.bufCap with
    | (_, none) => .fail
    | (r', some bytes) =>
      let bytes := bytes.take st.bufCap
      .good ⟨st.mz, st.bufCap, bytes, 0, bytes.length, r'⟩ (bytes.length = 0)
  else .good st false

/-- `Stream::read` (raw.rs lines 196-241), the shared pull-adapter pump
loop, with an explicit fuel for the `loop`.  Each iteration: refill the
staging buffer when exhausted, feed `buf[pos..cap]` to one engine call
(`MZ_FINISH` once the source reported eof, else `MZ_NO_FLUSH`), advance
`pos` by the engine's `total_in` delta, then match the status:
`MZ_OK | MZ_BUF_ERROR` with zero output and no eof repeats the loop,
otherwise returns `Ok(read)`; `MZ_STREAM_END` returns `Ok(read)`;
`MZ_DATA_ERROR` returns the corrupt-stream error; anything else panics. -/
def streamRead (f : EngineStep σ) (rd : ReaderStep ρ) :
    Nat → Nat → ReadSt σ ρ → ReadRes σ ρ
  | 0, _, _ => .diverge
  | fuel + 1, intoLen, st0 =>
    match refillStep rd st0 with
    | .fail => .err .ioErr
    | .good st eof =>
      let nextIn := (st.bufData.take st.cap).drop st.pos
      let beforeOut := st.mz.totalOut
      let beforeIn := st.mz.totalIn
      let flush := if eof then MZ_FINISH else MZ_NO_FLUSH
      let (mz', out, ret) := stepStream f st.mz nextIn intoLen flush
      let read := mz'.totalOut - beforeOut
      let st' : ReadSt σ ρ :=
        ⟨mz', st.bufCap, st.bufData, st.pos + (mz'.totalIn - beforeIn),
         st.cap, st.reader⟩
      if ret = MZ_OK ∨ ret = MZ_BUF_ERROR then
        if read = 0 ∧ eof = false then
          streamRead f rd fuel intoLen st'
        else .ok ⟨read, out, st', ret, eof⟩
      else if ret = MZ_STREAM_END then .ok ⟨read, out, st', ret, eof⟩
      else if ret = MZ_DATA_ERROR then .err .corrupt
      else .panicked

/-- The mutable state threaded through `Stream::write`: the `mz_stream`,
the growable output buffer (`into: Vec<u8>`, contents `into`, capacity
`intoCap`), and the downstream sink. -/
structure WriteSt (σ ω : Type) where
  mz : MzStream σ
  into : List Nat
  intoCap : Nat
  w : ω
deriving DecidableEq, Repr

/-- Outcome of `Stream::write`: `Ok(consumed)` with the updated state, an
error return with the state at the point of the early return, or a
`panic!` (the `n => panic!("unexpected return {}", n)` arm). -/
inductive WriteRes (σ ω : Type) where
  | ok : Nat → WriteSt σ ω → WriteRes σ ω
  | err : Err → WriteSt σ ω → WriteRes σ ω
  | panicked : WriteSt σ ω → WriteRes σ ω
deriving DecidableEq, Repr

/-- `Stream::write` (raw.rs lines 243-274), the shared push-adapter pump:
if the output buffer is non-empty, `write_all` it to the sink and truncate
it (an error here returns early); then one engine call with the caller's
bytes as input and the buffer's remaining capacity as output space,
appending the produced bytes (`set_len`); `MZ_OK | MZ_BUF_ERROR |
MZ_STREAM_END` return `Ok(total_in delta)`, anything else panics. -/
def streamWrite (f : EngineStep σ) (wrt : Sink ω) (buf : List Nat)
    (flush : Int) (st : WriteSt σ ω) : WriteRes σ ω :=
  match if st.into.length > 0 then
      (wrt.writeAll st.w st.into).map fun w' =>
        (⟨st.mz, [], st.intoCap, w'⟩ : WriteSt σ ω)
    else some st with
  | none => .err .ioErr st
  | some st1 =>
    let curLen := st1.into.length
    let beforeIn := st1.mz.totalIn
    let (mz', out, ret) :=
      stepStream f st1.mz buf (st1.intoCap - curLen) flush
    let st2 : WriteSt σ ω := ⟨mz', st1.into ++ out, st1.intoCap, st1.w⟩
    if ret = MZ_OK ∨ ret = MZ_BUF_ERROR ∨ ret = MZ_STREAM_END then
      .ok (mz'.totalIn - beforeIn) st2
    else .panicked st2

/-- The shared shape of the two push adapters, `EncoderWriter` (raw.rs
lines 13-17) and `DecoderWriter` (raw.rs lines 35-39): the public optional
sink `inner`, the `Stream` (its `mz_stream`), and the growable output
buffer `buf: Vec<u8>` (contents plus capacity).  The method embeddings
below are parameterised by the engine step `f`, exactly as the source
method bodies pass `ffi::mz_deflate` resp. `ffi::mz_inflate` to the shared
`Stream::write`; the two impls are otherwise textually identical. -/
structure PushState (σ ω : Type) where
  inner : Option ω
  mz : MzStream σ
  buf : List Nat
  bufCap : Nat
deriving DecidableEq, Repr

/-- Outcome of a push-adapter method call: `Ok` with a value and the
updated adapter, an `io::Error` return with the adapter at the early
return, or a panic (`unwrap` on a `None` sink, or the `panic!` arm of
`Stream::write`). -/
inductive ARes (σ ω α : Type) where
  | ok : α → PushState σ ω → ARes σ ω α
  | err : Err → PushState σ ω → ARes σ ω α
  | panicked : ARes σ ω α
deriving DecidableEq, Repr

/-- Reassemble the adapter state after `Stream::write` returned: the
borrowed pieces (`self.buf`, the unwrapped sink) go back into the
adapter's fields. -/
def restorePush (ws : WriteSt σ ω) : PushState σ ω :=
  ⟨some ws.w, ws.mz, ws.into, ws.intoCap⟩

/-- `<Write for EncoderWriter>::write` (raw.rs lines 66-69) and
`<Write for DecoderWriter>::write` (lines 151-154):
`self.stream.write(buf, MZ_NO_FLUSH, &mut self.buf,
self.inner.as_mut().unwrap(), f)`.  A `None` sink panics at the
`unwrap`. -/
def pushWrite (f : EngineStep σ) (wrt : Sink ω) (st : PushState σ ω)
    (buf : List Nat) : ARes σ ω Nat :=
  match st.inner with
  | none => .panicked
  | some w =>
    match streamWrite f wrt buf MZ_NO_FLUSH ⟨st.mz, st.buf, st.bufCap, w⟩ with
    | .ok n ws => .ok n (restorePush ws)
    | .err e ws => .err e (restorePush ws)
    | .panicked _ => .panicked

/-- `<Write for EncoderWriter>::flush` (raw.rs lines 71-79) and
`<Write for DecoderWriter>::flush` (lines 156-164): unwrap the sink, pump
with `MZ_SYNC_FLUSH` and empty input, then `write_all` the buffer to the
sink if non-empty (nothing truncates it here), then flush the sink. -/
def pushFlush (f : EngineStep σ) (wrt : Sink ω) (st : PushState σ ω) :
    ARes σ ω Unit :=
  match st.inner with
  | none => .panicked
  | some w =>
    match streamWrite f wrt [] MZ_SYNC_FLUSH ⟨st.mz, st.buf, st.bufCap, w⟩ with
    | .err e ws => .err e (restorePush ws)
    | .panicked _ => .panicked
    | .ok _ ws =>
      match if ws.into.length > 0 then wrt.writeAll ws.w ws.into
            else some ws.w with
      | none => .err .ioErr (restorePush ws)
      | some w1 =>
        match wrt.flushSink w1 with
        | none => .err .ioErr ⟨some w1, ws.mz, ws.into, ws.intoCap⟩
        | some w2 => .ok () ⟨some w2, ws.mz, ws.into, ws.intoCap⟩

/-- `EncoderWriter::do_finish` (raw.rs lines 55-62) and
`DecoderWriter::do_finish` (lines 140-147): unwrap the sink, pump with
`MZ_FINISH` and empty input, `write_all` the buffer to the sink, then
`self.buf.truncate(0)`. -/
def pushDoFinish (f : EngineStep σ) (wrt : Sink ω) (st : PushState σ ω) :
    ARes σ ω Unit :=
  match st.inner with
  | none => .panicked
  | some w =>
    match streamWrite f wrt [] MZ_FINISH ⟨st.mz, st.buf, st.bufCap, w⟩ with
    | .err e ws => .err e (restorePush ws)
    | .panicked _ => .panicked
    | .ok _ ws =>
      match wrt.writeAll ws.w ws.into with
      | none => .err .ioErr (restorePush ws)
      | some w1 => .ok () ⟨some w1, ws.mz, [], ws.intoCap⟩

/-- Modelled from the spec: the public `finish` wrapper around `do_finish`
lives outside src/ (only `do_finish` and `Drop` are in raw.rs); per §3
"the sink is held as an optional value consumed by `finish`, forcing
finish to occur at most effectively once".  On success the sink is taken
out of the adapter (`inner` becomes `None`) and returned. -/
def pushFinish (f : EngineStep σ) (wrt : Sink ω) (st : PushState σ ω) :
    ARes σ ω (Option ω) :=
  match pushDoFinish f wrt st with
  | .ok _ st1 => .ok st1.inner ⟨none, st1.mz, st1.buf, st1.bufCap⟩
  | .err e st1 => .err e st1
  | .panicked => .panicked

/-- Outcome of dropping a push adapter: the state after the teardown body
ran, or a panic escaping the destructor. -/
inductive DropRes (σ ω : Type) where
  | done : PushState σ ω → DropRes σ ω
  | panicked : DropRes σ ω
deriving DecidableEq, Repr

/-- `<Drop for EncoderWriter>::drop` (raw.rs lines 82-90): if `inner` is
`Some`, run `let _ = self.do_finish();` — the `Result` is discarded — and
do nothing when `inner` is `None`. -/
def pushDropEnc (f : EngineStep σ) (wrt : Sink ω) (st : PushState σ ω) :
    DropRes σ ω :=
  match st.inner with
  | none => .done st
  | some _ =>
    match pushDoFinish f wrt st with
    | .ok _ st1 => .done st1
    | .err _ st1 => .done st1
    | .panicked => .panicked

/-- `DecoderWriter` has no `Drop` impl in raw.rs: dropping it runs no
adapter-level teardown body (only the field-by-field drops). -/
def pushDropDec (st : PushState σ ω) : DropRes σ ω :=
  .done st

/-- Modelled from the spec: the opaque internal state of a
contract-conforming codec engine (§6); the engine itself is the foreign
miniz library, not part of src/.  `gather acc` is the initial phase
(input accumulated, §4.1 allows the engine to buffer internally under
`NO_FLUSH`); `emit pending` is the finishing phase (remaining final
bytes); `done` is the absorbing stream-end state; `failed` is the state
after reporting data corruption. -/
inductive GState where
  | gather : List Nat → GState
  | emit : List Nat → GState
  | done : GState
  | failed : GState
deriving DecidableEq, Repr

/-- Modelled from the spec (§4.1/§6): a codec engine built from a total
finalisation function `F` (returning `none` on malformed input, decode
side only).  Under any flush mode but `MZ_FINISH` it consumes all input
into its internal buffer, produces nothing and returns `MZ_OK`; on
`MZ_FINISH` it applies `F`, emits the result bounded by `avail_out`
(`MZ_OK` while output remains, `MZ_STREAM_END` when the last byte went
out), or returns `MZ_DATA_ERROR` when `F` rejects.  After stream-end it
keeps returning `MZ_STREAM_END` with no output; after a data error it
keeps returning `MZ_DATA_ERROR`. -/
def gatherStep (F : List Nat → Option (List Nat)) : EngineStep GState :=
  fun s inp availOut flush =>
    match s with
    | .gather acc =>
      if flush = MZ_FINISH then
        match F (acc ++ inp) with
        | none => ⟨.failed, inp.length, [], MZ_DATA_ERROR⟩
        | some p =>
          if p.length ≤ availOut then
            ⟨.done, inp.length, p, MZ_STREAM_END⟩
          else
            ⟨.emit (p.drop availOut), inp.length, p.take availOut, MZ_OK⟩
      else ⟨.gather (acc ++ inp), inp.length, [], MZ_OK⟩
    | .emit p =>
      if p.length ≤ availOut then
        ⟨.done, inp.length, p, MZ_STREAM_END⟩
      else
        ⟨.emit (p.drop availOut), inp.length, p.take availOut, MZ_OK⟩
    | .done => ⟨.done, 0, [], MZ_STREAM_END⟩
    | .failed => ⟨.failed, 0, [], MZ_DATA_ERROR⟩

/-- Modelled from the spec: the model compressed image of a payload
(glossary: raw mode omits the enclosing header/trailer).  Raw mode is a
length-prefixed copy; header mode adds the header byte 120 (0x78) and a
checksum trailer. -/
def encodeBytes (raw : Bool) (s : List Nat) : List Nat :=
  if raw then s.length :: s else 120 :: s.length :: (s ++ [s.sum])

/-- Modelled from the spec: the decoder's parse of a model compressed
stream; `none` on malformed or truncated input (bad header byte, wrong
length, or checksum mismatch). -/
def decodeBytes (raw : Bool) (bs : List Nat) : Option (List Nat) :=
  if raw then
    match bs with
    | [] => none
    | n :: rest => if rest.length = n then some rest else none
  else
    match bs with
    | h :: n :: rest =>
      if h = 120 ∧ rest.length = n + 1 ∧ rest.drop n = [(rest.take n).sum]
      then some (rest.take n) else none
    | _ => none

/-- Modelled from the spec (§6): the compressing engine `ffi::mz_deflate`
as a contract-conforming model; the raw flag selects the framing, as the
negated-window-bits `init` argument does in `Stream::new`. -/
def mzDeflateModel (raw : Bool) : EngineStep GState :=
  gatherStep (fun s => some (encodeBytes raw s))

/-- Modelled from the spec (§6): the decompressing engine
`ffi::mz_inflate` as a contract-conforming model; reports
`MZ_DATA_ERROR` on malformed input. -/
def mzInflateModel (raw : Bool) : EngineStep GState :=
  gatherStep (decodeBytes raw)

/-- A well-behaved in-memory byte source: reading up to `n` bytes yields
the next `n` bytes of the list; the empty list reads zero bytes
(exhausted, per the §6 source contract). -/
def listReaderStep : ReaderStep (List Nat) :=
  fun data n => (data.drop n, some (data.take n))

/-- A well-behaved in-memory byte sink recording every byte delivered,
in order. -/
def listSink : Sink (List Nat) :=
  ⟨fun w bs => some (w ++ bs), fun w => some w⟩

/-- A sink whose `write_all` always fails with an I/O error. -/
def failSink : Sink (List Nat) :=
  ⟨fun _ _ => none, fun w => some w⟩

/-- Outcome of draining a pull adapter to the end. -/
inductive RTRes where
  | ok : List Nat → RTRes
  | err : Err → RTRes
  | panicked : RTRes
  | diverge : RTRes
deriving DecidableEq, Repr

/-- Test-harness driver for the pull adapters: call `Stream::read`
repeatedly, concatenating the produced bytes, until a call returns
`Ok(0)` (end of stream, as `Read::read_to_end` does). -/
def readToEnd (f : EngineStep σ) (rd : ReaderStep ρ) :
    Nat → Nat → Nat → ReadSt σ ρ → List Nat → RTRes
  | 0, _, _, _, _ => .diverge
  | calls + 1, fuel, intoLen, st, acc =>
    match streamRead f rd fuel intoLen st with
    | .ok r =>
      if r.read = 0 then .ok acc
      else readToEnd f rd calls fuel intoLen r.st (acc ++ r.out)
    | .err e => .err e
    | .panicked => .panicked
    | .diverge => .diverge

/-- The fresh state of a pull adapter over an in-memory source `S`
(`EncoderReader::new` / `DecoderReader::new`, raw.rs lines 92-103 and
112-122: `pos = 0`, `cap = 0`, staging buffer of length `B`, fresh
engine with zero totals). -/
def freshReadSt (B : Nat) (S : List Nat) : ReadSt GState (List Nat) :=
  ⟨⟨0, 0, .gather []⟩, B, [], 0, 0, S⟩

/-- Compress `S` through `EncoderReader` (staging buffer of size `B`,
caller buffer large enough for the whole model-compressed image) and
collect everything it reads out. -/
def encodeAdapter (raw : Bool) (B : Nat) (S : List Nat) : RTRes :=
  readToEnd (mzDeflateModel raw) listReaderStep 2 (S.length + 2)
    (S.length + 3) (freshReadSt B S) []

/-- Decompress `enc` through `DecoderReader` (staging buffer of size `B`,
caller buffer large enough for the whole payload) and collect everything
it reads out. -/
def decodeAdapter (raw : Bool) (B : Nat) (enc : List Nat) : RTRes :=
  readToEnd (mzInflateModel raw) listReaderStep 2 (enc.length + 2)
    (enc.length + 3) (freshReadSt B enc) []

/-- Compress `S` through the encoder, then decompress the compressed
bytes through the decoder (spec §8 round-trip harness). -/
def roundTrip (raw : Bool) (B : Nat) (S : List Nat) : RTRes :=
  match encodeAdapter raw B S with
  | .ok enc => decodeAdapter raw B enc
  | .err e => .err e
  | .panicked => .panicked
  | .diverge => .diverge

/-- `enum Flavor { Deflate, Inflate }` (raw.rs line 41). -/
inductive Flavor where
  | deflate : Flavor
  | inflate : Flavor
deriving DecidableEq, Repr

/-- Engine-lifecycle events: one per call to the native init entry points
(`mz_deflateInit2` / `mz_inflateInit2`) and one per call to the teardown
entry points (`mz_deflateEnd` / `mz_inflateEnd`). -/
inductive LifeEv where
  | initEv : Flavor → LifeEv
  | endEv : Flavor → LifeEv
deriving DecidableEq, Repr

/-- `Stream::new` (raw.rs lines 167-194): exactly one init call, chosen by
flavor, then `assert_eq!(ret, 0)`. -/
def streamNewTrace (fl : Flavor) : List LifeEv :=
  [.initEv fl]

/-- `<Drop for Stream>::drop` (raw.rs lines 290-299): exactly one teardown
call, chosen by flavor. -/
def streamDropTrace (fl : Flavor) : List LifeEv :=
  [.endEv fl]

def isInitEv : LifeEv → Bool
  | .initEv _ => true
  | .endEv _ => false

def isEndEv : LifeEv → Bool
  | .initEv _ => false
  | .endEv _ => true

/-- The caller-visible operations of a push adapter. -/
inductive PushOp where
  | writeOp : List Nat → PushOp
  | flushOp : PushOp
  | finishOp : PushOp
deriving DecidableEq, Repr

/-- Dispatch one caller operation to the corresponding method embedding. -/
def runPushOp (f : EngineStep σ) (wrt : Sink ω) (op : PushOp)
    (st : PushState σ ω) : ARes σ ω Unit :=
  match op with
  | .writeOp bs =>
    match pushWrite f wrt st bs with
    | .ok _ st1 => .ok () st1
    | .err e st1 => .err e st1
    | .panicked => .panicked
  | .flushOp => pushFlush f wrt st
  | .finishOp => pushDoFinish f wrt st

/-- Run a sequence of caller operations, stopping at the first one that
returns an error (the caller's early return path) or panics (unwinding);
either way the adapter value still goes out of scope afterwards. -/
def runPushOps (f : EngineStep σ) (wrt : Sink ω) :
    List PushOp → PushState σ ω → PushState σ ω
  | [], st => st
  | op :: rest, st =>
    match runPushOp f wrt op st with
    | .ok _ st1 => runPushOps f wrt rest st1
    | .err _ st1 => st1
    | .panicked => st

/-- One full push-adapter lifetime, instrumented for engine-lifecycle
events: construction runs `Stream::new` once; the caller operations reach
the engine only through the already-initialised handle (their embeddings
above call only the step function `f`, never an init or teardown entry
point, so they contribute no lifecycle events); at scope exit Rust drops
the adapter exactly once — `<Drop for EncoderWriter>` first (the implicit
`do_finish` attempt), then the `Stream` field's own `Drop`, which makes
the single teardown call.  The driver encodes the language guarantee that
the destructor runs once on every exit path (normal completion, early
error return, drop without finish). -/
def pushLifecycle (f : EngineStep σ) (wrt : Sink ω) (fl : Flavor)
    (ops : List PushOp) (st0 : PushState σ ω) :
    List LifeEv × DropRes σ ω :=
  let final := runPushOps f wrt ops st0
  (streamNewTrace fl ++ streamDropTrace fl, pushDropEnc f wrt final)

/-- Run a sequence of reads (each given by its caller-buffer length) on a
pull adapter, stopping at the first error/panic/fuel exhaustion. -/
def runPullOps (f : EngineStep σ) (rd : ReaderStep ρ) (fuel : Nat) :
    List Nat → ReadSt σ ρ → ReadSt σ ρ
  | [], st => st
  | intoLen :: rest, st =>
    match streamRead f rd fuel intoLen st with
    | .ok r => runPullOps f rd fuel rest r.st
    | _ => st

/-- One full pull-adapter lifetime, instrumented as in `pushLifecycle`;
`EncoderReader`/`DecoderReader` have no `Drop` impl of their own, so scope
exit runs only the `Stream` field's `Drop` (one teardown call). -/
def pullLifecycle (f : EngineStep σ) (rd : ReaderStep ρ) (fl : Flavor)
    (fuel : Nat) (ops : List Nat) (st0 : ReadSt σ ρ) :
    List LifeEv × ReadSt σ ρ :=
  (streamNewTrace fl ++ streamDropTrace fl, runPullOps f rd fuel ops st0)

/-- Modelled from the spec (§4.1): a miniz inflate engine that has
detected malformed input keeps reporting `MZ_DATA_ERROR` from every step
(used to exercise the adapters' corrupt-input paths). -/
def corruptStep : EngineStep Unit :=
  fun _ _ _ _ => ⟨(), 0, [], MZ_DATA_ERROR⟩

/-- Modelled from the spec (§4.1, "SYNC_FLUSH: force all pending output
out now"): an engine that emits one byte (7) on its first `MZ_SYNC_FLUSH`
pump — as zlib emits a sync marker — and nothing afterwards; the state
counts sync pumps. -/
def syncEmitStep : EngineStep Nat :=
  fun s inp availOut flush =>
    if flush = MZ_SYNC_FLUSH ∧ s = 0 then ⟨1, inp.length, [7].take availOut, MZ_OK⟩
    else ⟨s, inp.length, [], MZ_OK⟩

/-- A fresh `EncoderWriter` over a recording sink with output-buffer
capacity 4 (`EncoderWriter::new`, raw.rs lines 46-53). -/
def flushDemoSt : PushState Nat (List Nat) :=
  ⟨some [], ⟨0, 0, 0⟩, [], 4⟩

/-- C10: for every push adapter whose public `inner` field has been set to
`None`, any call to `write`, `flush`, or `do_finish` panics at the
`self.inner.as_mut().unwrap()` rather than returning an error value; no
operation checks for this state. -/
theorem c10_none_inner_panics (σ ω : Type) (f : EngineStep σ) (wrt : Sink ω)
    (st : PushState σ ω) (buf : List Nat) (h : st.inner = none) :
    pushWrite f wrt st buf = .panicked ∧
    pushFlush f wrt st = .panicked ∧
    pushDoFinish f wrt st = .panicked := by
  obtain ⟨inner, mz, b, cap⟩ := st
  subst h
  exact ⟨rfl, rfl, rfl⟩

/-- C10 witness: the three operations at a concrete sink-less adapter. -/
theorem c10_none_inner_panics_witness :
    pushWrite (fun s _ _ _ => ⟨s, 0, [], MZ_OK⟩) listSink
        ⟨none, ⟨0, 0, ()⟩, [], 0⟩ [1] = .panicked ∧
    pushFlush (fun s _ _ _ => ⟨s, 0, [], MZ_OK⟩) listSink
        ⟨none, ⟨0, 0, ()⟩, [], 0⟩ = .panicked ∧
    pushDoFinish (fun s _ _ _ => ⟨s, 0, [], MZ_OK⟩) listSink
        ⟨none, ⟨0, 0, ()⟩, [], 0⟩ = .panicked :=
  c10_none_inner_panics Unit (List Nat) _ listSink ⟨none, ⟨0, 0, ()⟩, [], 0⟩ [1] rfl

/-- C2 (evidence for the code bug): decoding the spec's garbage scenario
`[0, 1, 2]` through the pull-side `DecoderReader::read` yields the
distinct corrupt-stream error, but the push-side `DecoderWriter::write`
— whose shared `Stream::write` match (raw.rs lines 268-273) has no
`MZ_DATA_ERROR` arm — panics on an engine that reports data corruption
instead of returning an error. -/
theorem c2_corrupt_input_paths :
    streamRead (mzInflateModel true) listReaderStep 3 4 (freshReadSt 4 [0, 1, 2])
      = .err .corrupt ∧
    pushWrite corruptStep listSink ⟨some [], ⟨0, 0, ()⟩, [], 4⟩ [0, 1, 2]
      = .panicked :=
  ⟨by decide, by decide⟩

/-- C3 (evidence for the code bug): `flush` performs a successful drain of
the output buffer to the sink (`write_all` at raw.rs line 76) but does not
truncate the buffer afterwards, so the next call's drain delivers the same
byte to the sink a second time: after two flushes the recording sink holds
`[7, 7]` although the engine only ever produced the single byte 7. -/
theorem c3_flush_skips_truncate :
    ∃ st1 st2,
      pushFlush syncEmitStep listSink flushDemoSt = .ok () st1 ∧
      st1.inner = some [7] ∧ st1.buf = [7] ∧
      pushFlush syncEmitStep listSink st1 = .ok () st2 ∧
      st2.inner = some [7, 7] := by
  refine ⟨⟨some [7], ⟨0, 1, 1⟩, [7], 4⟩, ⟨some [7, 7], ⟨0, 1, 1⟩, [], 4⟩,
    ?_, ?_, ?_, ?_, ?_⟩ <;> decide

/-- C4 (evidence for the code bug): two flushes in a row with no
intervening writes — the first flush already delivered every buffered byte
to the sink (it holds `[7]`), yet the second flush delivers one more byte
(the sink grows to `[7, 7]`), because the first flush left the
already-delivered byte in the buffer. -/
theorem c4_second_flush_not_idempotent :
    ∃ st1 st2,
      pushFlush syncEmitStep listSink flushDemoSt = .ok () st1 ∧
      st1.inner = some [7] ∧
      pushFlush syncEmitStep listSink st1 = .ok () st2 ∧
      st2.inner = some [7, 7] := by
  refine ⟨⟨some [7], ⟨0, 1, 1⟩, [7], 4⟩, ⟨some [7, 7], ⟨0, 1, 1⟩, [], 4⟩,
    ?_, ?_, ?_, ?_⟩ <;> decide

/-- C8: when the output buffer holds undelivered bytes, `Stream::write`
first writes them all to the sink: if that drain fails, the error
propagates with the state exactly as it was (the engine is not stepped and
no caller input is consumed); if it succeeds, the call continues exactly
as a call on the drained state (buffer empty, sink having received the old
buffer bytes) would. -/
theorem c8_drain_before_pump (σ ω : Type) (f : EngineStep σ) (wrt : Sink ω)
    (buf : List Nat) (flush : Int) (st : WriteSt σ ω) (hne : st.into ≠ []) :
    (wrt.writeAll st.w st.into = none →
        streamWrite f wrt buf flush st = .err .ioErr st) ∧
    ∀ w1, wrt.writeAll st.w st.into = some w1 →
        streamWrite f wrt buf flush st =
          streamWrite f wrt buf flush ⟨st.mz, [], st.intoCap, w1⟩ := by
  have hlen : st.into.length > 0 := List.length_pos.mpr hne
  constructor
  · intro hfail
    simp only [streamWrite, if_pos hlen, hfail, Option.map_none']
  · intro w1 hok
    simp only [streamWrite, if_pos hlen, hok, Option.map_some']
    simp [streamWrite]

/-- C8 witness: a failing drain propagates with nothing consumed; a
successful drain reduces the call to the drained state. -/
theorem c8_drain_before_pump_witness :
    (streamWrite corruptStep failSink [9] MZ_NO_FLUSH ⟨⟨0, 0, ()⟩, [5], 4, []⟩
      = .err .ioErr ⟨⟨0, 0, ()⟩, [5], 4, []⟩) ∧
    streamWrite (fun s i _ _ => ⟨s, i.length, [], MZ_OK⟩) listSink [9]
        MZ_NO_FLUSH ⟨⟨0, 0, ()⟩, [5], 4, []⟩
      = streamWrite (fun s i _ _ => ⟨s, i.length, [], MZ_OK⟩) listSink [9]
          MZ_NO_FLUSH ⟨⟨0, 0, ()⟩, [], 4, [5]⟩ :=
  ⟨(c8_drain_before_pump Unit (List Nat) corruptStep failSink [9] MZ_NO_FLUSH
      ⟨⟨0, 0, ()⟩, [5], 4, []⟩ (by decide)).1 rfl,
   (c8_drain_before_pump Unit (List Nat) (fun s i _ _ => ⟨s, i.length, [], MZ_OK⟩)
      listSink [9] MZ_NO_FLUSH ⟨⟨0, 0, ()⟩, [5], 4, []⟩ (by decide)).2 [5] rfl⟩

/-- C5: finish happens at most effectively once.  After a successful
`finish` the sink is consumed (`inner = None`) and teardown does not
attempt `do_finish` again; when the caller never finished, teardown runs
the implicit `do_finish` attempt and discards its error; a sink-less
adapter's teardown does nothing. -/
theorem c5_finish_at_most_once (σ ω : Type) (f : EngineStep σ) (wrt : Sink ω) :
    (∀ st r st1, pushFinish f wrt st = .ok r st1 →
        st1.inner = none ∧ pushDropEnc f wrt st1 = .done st1) ∧
    (∀ st e st1, pushDoFinish f wrt st = .err e st1 →
        pushDropEnc f wrt st = .done st1) ∧
    ∀ st : PushState σ ω, st.inner = none → pushDropEnc f wrt st = .done st := by
  refine ⟨?_, ?_, ?_⟩
  · intro st r st1 h
    unfold pushFinish at h
    cases hdo : pushDoFinish f wrt st with
    | ok a st2 => rw [hdo] at h; cases h; exact ⟨rfl, rfl⟩
    | err e st2 => rw [hdo] at h; cases h
    | panicked => rw [hdo] at h; cases h
  · intro st e st1 h
    obtain ⟨i, mz, b, c⟩ := st
    cases i with
    | none => simp [pushDoFinish] at h
    | some w => simp only [pushDropEnc, h]
  · intro st h
    obtain ⟨i, mz, b, c⟩ := st
    subst h
    rfl

/-- C5 witness: a concrete successful finish followed by a no-op
teardown, and a concrete failed implicit finish whose error the teardown
discards. -/
theorem c5_finish_at_most_once_witness :
    ((⟨none, ⟨0, 1, .done⟩, [], 4⟩ : PushState GState (List Nat)).inner = none ∧
      pushDropEnc (mzDeflateModel true) listSink ⟨none, ⟨0, 1, .done⟩, [], 4⟩
        = .done ⟨none, ⟨0, 1, .done⟩, [], 4⟩) ∧
    pushDropEnc (mzDeflateModel true) failSink ⟨some [], ⟨0, 0, .gather []⟩, [], 4⟩
      = .done ⟨some [], ⟨0, 1, .done⟩, [0], 4⟩ :=
  ⟨(c5_finish_at_most_once GState (List Nat) (mzDeflateModel true) listSink).1
      ⟨some [], ⟨0, 0, .gather []⟩, [], 4⟩ (some [0]) _ (by decide),
   (c5_finish_at_most_once GState (List Nat) (mzDeflateModel true) failSink).2.1
      ⟨some [], ⟨0, 0, .gather []⟩, [], 4⟩ .ioErr _ (by decide)⟩

/-- C9: over a whole adapter lifetime — any sequence of caller operations,
stopping early on error or panic, followed by the single scope-exit drop —
the engine-lifecycle trace contains exactly one init event (from
`Stream::new`) and exactly one teardown event (from `Drop for Stream`),
for push and pull adapters alike. -/
theorem c9_engine_lifecycle (σ ω ρ : Type) (f : EngineStep σ) (wrt : Sink ω)
    (rd : ReaderStep ρ) (fl : Flavor) (ops : List PushOp) (rops : List Nat)
    (fuel : Nat) (st0 : PushState σ ω) (rst0 : ReadSt σ ρ) :
    ((pushLifecycle f wrt fl ops st0).1.countP isInitEv = 1 ∧
      (pushLifecycle f wrt fl ops st0).1.countP isEndEv = 1) ∧
    (pullLifecycle f rd fl fuel rops rst0).1.countP isInitEv = 1 ∧
    (pullLifecycle f rd fl fuel rops rst0).1.countP isEndEv = 1 := by
  simp [pushLifecycle, pullLifecycle, streamNewTrace, streamDropTrace,
    isInitEv, isEndEv]

/-- A successful refill leaves the `mz_stream` untouched (the refill step
only touches the staging buffer, its cursors, and the reader). -/
theorem refill_preserves_mz (rd : ReaderStep ρ) (st st1 : ReadSt σ ρ) (eof : Bool)
    (h : refillStep rd st = .good st1 eof) : st1.mz = st.mz := by
  unfold refillStep at h
  split at h
  · rcases hq : rd st.reader st.bufCap with ⟨q, ob⟩
    rw [hq] at h
    cases ob with
    | none => exact RefillRes.noConfusion h
    | some bytes => cases h; rfl
  · cases h; rfl

/-- When the engine reports `MZ_STREAM_END` on the first pump of a read
call (no refill, pending input in `[pos, cap)`), the call returns `Ok`
immediately with exactly the bytes that pump produced. -/
theorem streamRead_end_exit (σ ρ : Type) (f : EngineStep σ) (rd : ReaderStep ρ)
    (fuel intoLen : Nat) (st : ReadSt σ ρ) (hpc : ¬ st.pos = st.cap)
    (s1 : σ) (c : Nat) (o : List Nat)
    (hstep : f st.mz.state ((st.bufData.take st.cap).drop st.pos) intoLen MZ_NO_FLUSH
        = ⟨s1, c, o, MZ_STREAM_END⟩) :
    streamRead f rd (fuel + 1) intoLen st =
      .ok ⟨o.length, o,
        ⟨⟨st.mz.totalIn + c, st.mz.totalOut + o.length, s1⟩, st.bufCap,
          st.bufData, st.pos + c, st.cap, st.reader⟩, MZ_STREAM_END, false⟩ := by
  have hre : refillStep rd st = .good st false := by
    unfold refillStep; rw [if_neg hpc]
  rw [streamRead, hre]
  dsimp only
  have hfl : (if (false = true) then MZ_FINISH else MZ_NO_FLUSH) = MZ_NO_FLUSH := rfl
  rw [hfl]
  simp only [stepStream, hstep]
  have h1 : ¬(MZ_STREAM_END = MZ_OK ∨ MZ_STREAM_END = MZ_BUF_ERROR) := by decide
  rw [if_neg h1, if_pos trivial]
  simp [Nat.add_sub_cancel_left]

/-- Once the engine is in an absorbing stream-end state (every further
step consumes nothing, produces nothing and returns `MZ_STREAM_END`) and
the source never errors, a read call returns `Ok` with zero bytes and the
engine stays in that state. -/
theorem streamRead_after_end (σ ρ : Type) (f : EngineStep σ) (rd : ReaderStep ρ)
    (fuel intoLen : Nat) (e : σ)
    (habs : ∀ inp availOut fl, f e inp availOut fl = ⟨e, 0, [], MZ_STREAM_END⟩)
    (hrd : ∀ q n, ((rd q n).2).isSome = true)
    (st : ReadSt σ ρ) (hst : st.mz.state = e) :
    ∃ r, streamRead f rd (fuel + 1) intoLen st = .ok r ∧
      r.read = 0 ∧ r.out = [] ∧ r.st.mz.state = e := by
  rw [streamRead]
  cases hre : refillStep rd st with
  | fail =>
    exfalso
    unfold refillStep at hre
    split at hre
    · rcases hq : rd st.reader st.bufCap with ⟨q, ob⟩
      rw [hq] at hre
      cases ob with
      | none => have := hrd st.reader st.bufCap; rw [hq] at this; simp at this
      | some bytes => exact RefillRes.noConfusion hre
    · exact RefillRes.noConfusion hre
  | good st1 eof =>
    have hs1 : st1.mz.state = e := by rw [refill_preserves_mz rd st st1 eof hre, hst]
    dsimp only
    generalize (if eof = true then MZ_FINISH else MZ_NO_FLUSH) = fl
    simp only [stepStream, hs1, habs]
    have h1 : ¬(MZ_STREAM_END = MZ_OK ∨ MZ_STREAM_END = MZ_BUF_ERROR) := by decide
    rw [if_neg h1, if_pos trivial]
    exact ⟨_, rfl, by simp, rfl, rfl⟩

/-- Running the pull-adapter loop over a gathering model engine drains the
whole source (refilling the staging buffer chunk by chunk), then emits the
finalisation `F` of everything read, ending with `MZ_STREAM_END`. -/
theorem gatherRead_drains (F : List Nat → Option (List Nat)) (B intoLen : Nat)
    (hB : 1 ≤ B) :
    ∀ fuel acc rem res tIn tOut d p,
      F (acc ++ rem) = some res → res.length ≤ intoLen →
      rem.length + 1 ≤ fuel →
      streamRead (gatherStep F) listReaderStep fuel intoLen
          ⟨⟨tIn, tOut, .gather acc⟩, B, d, p, p, rem⟩ =
        .ok ⟨res.length, res,
          ⟨⟨tIn + rem.length, tOut + res.length, .done⟩, B, [], 0, 0, []⟩,
          MZ_STREAM_END, true⟩ := by
  have hB0 : ¬ B = 0 := by omega
  intro fuel
  induction fuel with
  | zero => intro acc rem res tIn tOut d p hF hres hfuel; omega
  | succ n ih =>
    intro acc rem res tIn tOut d p hF hres hfuel
    have hre : refillStep listReaderStep
        (⟨⟨tIn, tOut, .gather acc⟩, B, d, p, p, rem⟩ : ReadSt GState (List Nat))
        = .good ⟨⟨tIn, tOut, .gather acc⟩, B, rem.take B, 0, (rem.take B).length,
            rem.drop B⟩ (decide ((rem.take B).length = 0)) := by
      simp [refillStep, listReaderStep, List.take_take]
    cases rem with
    | nil =>
      rw [List.append_nil] at hF
      rw [streamRead, hre]
      simp [gatherStep, stepStream, hF, hres, MZ_FINISH, MZ_NO_FLUSH, MZ_OK,
        MZ_BUF_ERROR, MZ_STREAM_END, MZ_DATA_ERROR]
    | cons b rs =>
      have hF' : F ((acc ++ (b :: rs).take B) ++ (b :: rs).drop B) = some res := by
        rw [List.append_assoc, List.take_append_drop]; exact hF
      have hfuel2 : rs.length + 2 ≤ n + 1 := by simpa using hfuel
      have hfuel' : ((b :: rs).drop B).length + 1 ≤ n := by
        simp [List.length_drop]; omega
      have htt : List.take (B ⊓ (rs.length + 1)) (List.take B (b :: rs))
          = List.take B (b :: rs) := by
        rw [List.take_take]
        apply List.take_eq_take.mpr
        simp only [List.length_cons]
        omega
      have hiter : streamRead (gatherStep F) listReaderStep (n + 1) intoLen
          ⟨⟨tIn, tOut, .gather acc⟩, B, d, p, p, b :: rs⟩
          = streamRead (gatherStep F) listReaderStep n intoLen
              ⟨⟨tIn + ((b :: rs).take B).length, tOut,
                  .gather (acc ++ (b :: rs).take B)⟩,
                B, (b :: rs).take B, ((b :: rs).take B).length,
                ((b :: rs).take B).length, (b :: rs).drop B⟩ := by
        rw [streamRead, hre]
        simp [hB0, gatherStep, stepStream, List.take_length, htt, MZ_FINISH,
          MZ_NO_FLUSH, MZ_OK, MZ_BUF_ERROR, MZ_STREAM_END, MZ_DATA_ERROR]
      rw [hiter, ih (acc ++ (b :: rs).take B) ((b :: rs).drop B) res
        (tIn + ((b :: rs).take B).length) tOut ((b :: rs).take B)
        (((b :: rs).take B).length) hF' hres hfuel']
      have harith : tIn + ((b :: rs).take B).length + ((b :: rs).drop B).length
          = tIn + (b :: rs).length := by
        simp [List.length_take, List.length_drop]; omega
      rw [harith]

/-- Reading again after the model engine reached its absorbing stream-end
state yields `Ok(0)`: the refill sees the exhausted source, the engine
reports `MZ_STREAM_END` with no output, and the call returns normally. -/
theorem doneRead_zero (F : List Nat → Option (List Nat))
    (B intoLen fuel tIn tOut : Nat) (hf : 1 ≤ fuel) :
    streamRead (gatherStep F) listReaderStep fuel intoLen
        ⟨⟨tIn, tOut, .done⟩, B, [], 0, 0, []⟩ =
      .ok ⟨0, [], ⟨⟨tIn, tOut, .done⟩, B, [], 0, 0, []⟩, MZ_STREAM_END, true⟩ := by
  obtain ⟨m, rfl⟩ : ∃ m, fuel = m + 1 := ⟨fuel - 1, by omega⟩
  rw [streamRead]
  have hre : refillStep listReaderStep
      (⟨⟨tIn, tOut, .done⟩, B, [], 0, 0, []⟩ : ReadSt GState (List Nat))
      = .good ⟨⟨tIn, tOut, .done⟩, B, [], 0, 0, []⟩ true := by
    simp [refillStep, listReaderStep]
  rw [hre]
  simp [gatherStep, stepStream, MZ_FINISH, MZ_OK, MZ_BUF_ERROR,
    MZ_STREAM_END, MZ_DATA_ERROR]

/-- The model image of `s` is at most three bytes longer than `s`. -/
theorem encodeBytes_length_le (raw : Bool) (s : List Nat) :
    (encodeBytes raw s).length ≤ s.length + 3 := by
  cases raw <;> (simp [encodeBytes]; try omega)

/-- The model image of `s` is strictly longer than `s` (never empty). -/
theorem encodeBytes_length_ge (raw : Bool) (s : List Nat) :
    s.length + 1 ≤ (encodeBytes raw s).length := by
  cases raw <;> (simp [encodeBytes]; try omega)

/-- The model decoder inverts the model encoder, in both raw and
header-bearing mode. -/
theorem decodeBytes_encodeBytes (raw : Bool) (s : List Nat) :
    decodeBytes raw (encodeBytes raw s) = some s := by
  cases raw with
  | true => simp [encodeBytes, decodeBytes]
  | false => simp [encodeBytes, decodeBytes, List.take_left, List.drop_left]

/-- Draining the encoder pull adapter yields exactly the model-compressed
image of the source, for every staging-buffer size `B ≥ 1`. -/
theorem encodeAdapter_ok (raw : Bool) (B : Nat) (S : List Nat) (hB : 1 ≤ B) :
    encodeAdapter raw B S = .ok (encodeBytes raw S) := by
  have henc := gatherRead_drains (fun s => some (encodeBytes raw s)) B (S.length + 3)
    hB (S.length + 2) [] S (encodeBytes raw S) 0 0 [] 0 (by simp)
    (encodeBytes_length_le raw S) (by omega)
  have hne : ¬ (encodeBytes raw S).length = 0 := by
    have := encodeBytes_length_ge raw S; omega
  unfold encodeAdapter mzDeflateModel freshReadSt
  rw [readToEnd, henc]
  dsimp only
  rw [if_neg hne]
  rw [readToEnd, doneRead_zero (fun s => some (encodeBytes raw s)) B (S.length + 3)
    (S.length + 2) _ _ (by omega)]
  simp

/-- Draining the decoder pull adapter over the model-compressed image of
`S` yields `S` back, for every staging-buffer size `B ≥ 1`. -/
theorem decodeAdapter_ok (raw : Bool) (B : Nat) (S : List Nat) (hB : 1 ≤ B) :
    decodeAdapter raw B (encodeBytes raw S) = .ok S := by
  have hdec := gatherRead_drains (decodeBytes raw) B ((encodeBytes raw S).length + 3)
    hB ((encodeBytes raw S).length + 2) [] (encodeBytes raw S) S 0 0 [] 0
    (by simpa using decodeBytes_encodeBytes raw S)
    (by have := encodeBytes_length_ge raw S; omega) (by omega)
  unfold decodeAdapter mzInflateModel freshReadSt
  rw [readToEnd, hdec]
  dsimp only
  by_cases hS : S.length = 0
  · rw [if_pos hS]
    obtain rfl : S = [] := List.length_eq_zero.mp hS
    rfl
  · rw [if_neg hS]
    rw [readToEnd, doneRead_zero (decodeBytes raw) B ((encodeBytes raw S).length + 3)
      ((encodeBytes raw S).length + 2) _ _ (by omega)]
    simp

/-- C1: for every byte sequence `S` (including the empty one), every value
of the raw-mode flag, and every staging-buffer size `B ≥ 1`, compressing
`S` through the encoder adapter and then decompressing the result through
the decoder adapter yields exactly `S` (engine modelled per the spec's §6
contract). -/
theorem c1_round_trip (raw : Bool) (B : Nat) (S : List Nat) (hB : 1 ≤ B) :
    roundTrip raw B S = .ok S := by
  unfold roundTrip
  rw [encodeAdapter_ok raw B S hB]
  exact decodeAdapter_ok raw B S hB

/-- C1 witness: concrete round trips, raw and header-bearing, including
the empty input. -/
theorem c1_round_trip_witness :
    roundTrip false 1 [1, 2, 3] = .ok [1, 2, 3] ∧ roundTrip true 2 [] = .ok [] :=
  ⟨c1_round_trip false 1 [1, 2, 3] (by decide), c1_round_trip true 2 [] (by decide)⟩

/-- C6: whenever `Stream::read` returns `Ok(0)`, the final loop iteration
either observed source EOF on its refill or got `MZ_STREAM_END` from the
engine — a zero-output engine step without stream-end and without EOF
always repeats the loop instead of returning. -/
theorem c6_read_no_spurious_zero (σ ρ : Type) (f : EngineStep σ)
    (rd : ReaderStep ρ) (fuel intoLen : Nat) (st : ReadSt σ ρ)
    (r : ReadOk σ ρ) (h : streamRead f rd fuel intoLen st = .ok r)
    (hz : r.read = 0) :
    r.lastEof = true ∨ r.lastRet = MZ_STREAM_END := by
  induction fuel generalizing st with
  | zero => simp [streamRead] at h
  | succ n ih =>
    rw [streamRead] at h
    cases hre : refillStep rd st with
    | fail => rw [hre] at h; exact ReadRes.noConfusion h
    | good st1 eof =>
      rw [hre] at h
      dsimp only at h
      generalize (if eof = true then MZ_FINISH else MZ_NO_FLUSH) = fl at h
      generalize stepStream f st1.mz ((st1.bufData.take st1.cap).drop st1.pos) intoLen fl = sr at h
      obtain ⟨mz', out, ret⟩ := sr
      dsimp only at h
      split at h
      · split at h
        · exact ih _ h
        · rename_i hcond
          cases h
          dsimp only at hz
          left
          cases eof with
          | true => rfl
          | false => exact absurd ⟨hz, rfl⟩ hcond
      · split at h
        · rename_i hend
          cases h
          exact Or.inr hend
        · split at h
          · exact ReadRes.noConfusion h
          · exact ReadRes.noConfusion h

/-- C6 witness: a concrete `Ok(0)` return, produced only at stream-end
with the source exhausted. -/
theorem c6_read_no_spurious_zero_witness :
    (⟨0, [], ⟨⟨0, 0, .done⟩, 4, [], 0, 0, []⟩, MZ_STREAM_END, true⟩
        : ReadOk GState (List Nat)).lastEof = true ∨
    (⟨0, [], ⟨⟨0, 0, .done⟩, 4, [], 0, 0, []⟩, MZ_STREAM_END, true⟩
        : ReadOk GState (List Nat)).lastRet = MZ_STREAM_END :=
  c6_read_no_spurious_zero GState (List Nat) (mzInflateModel true) listReaderStep 1 4
    ⟨⟨0, 0, .done⟩, 4, [], 0, 0, []⟩
    ⟨0, [], ⟨⟨0, 0, .done⟩, 4, [], 0, 0, []⟩, MZ_STREAM_END, true⟩ (by decide) rfl

/-- C7: a read call that observes the engine's stream-end status returns
normally with whatever that pump produced (possibly zero); and on an
adapter whose engine is in an absorbing stream-end state, every further
read call (over a non-erring source) is safe — it returns `Ok` with zero
bytes, no error and no panic, leaving the engine at stream-end. -/
theorem c7_stream_end_terminal (σ ρ : Type) (f : EngineStep σ) (rd : ReaderStep ρ)
    (fuel intoLen : Nat) :
    (∀ st : ReadSt σ ρ, ¬ st.pos = st.cap → ∀ s1 c o,
        f st.mz.state ((st.bufData.take st.cap).drop st.pos) intoLen MZ_NO_FLUSH
          = ⟨s1, c, o, MZ_STREAM_END⟩ →
        streamRead f rd (fuel + 1) intoLen st =
          .ok ⟨o.length, o,
            ⟨⟨st.mz.totalIn + c, st.mz.totalOut + o.length, s1⟩, st.bufCap,
              st.bufData, st.pos + c, st.cap, st.reader⟩, MZ_STREAM_END, false⟩) ∧
    ∀ e : σ, (∀ inp availOut fl, f e inp availOut fl = ⟨e, 0, [], MZ_STREAM_END⟩) →
      (∀ q n, ((rd q n).2).isSome = true) →
      ∀ st : ReadSt σ ρ, st.mz.state = e →
      ∃ r, streamRead f rd (fuel + 1) intoLen st = .ok r ∧
        r.read = 0 ∧ r.out = [] ∧ r.st.mz.state = e :=
  ⟨fun st hpc s1 c o hstep =>
      streamRead_end_exit σ ρ f rd fuel intoLen st hpc s1 c o hstep,
   fun e habs hrd st hst =>
      streamRead_after_end σ ρ f rd fuel intoLen e habs hrd st hst⟩

/-- C7 witness: a concrete stream-end pump returning normally, and a
concrete post-stream-end read returning zero bytes. -/
theorem c7_stream_end_terminal_witness :
    (streamRead (mzInflateModel true) listReaderStep 1 4
        ⟨⟨3, 5, .done⟩, 4, [9, 8], 1, 2, []⟩
      = .ok ⟨0, [], ⟨⟨3, 5, .done⟩, 4, [9, 8], 1, 2, []⟩, MZ_STREAM_END, false⟩) ∧
    ∃ r, streamRead (mzInflateModel true) listReaderStep 1 4
        ⟨⟨0, 0, .done⟩, 4, [], 0, 0, []⟩ = .ok r ∧
      r.read = 0 ∧ r.out = [] ∧ r.st.mz.state = .done :=
  ⟨(c7_stream_end_terminal GState (List Nat) (mzInflateModel true) listReaderStep 0 4).1
      ⟨⟨3, 5, .done⟩, 4, [9, 8], 1, 2, []⟩ (by decide) .done 0 [] rfl,
   (c7_stream_end_terminal GState (List Nat) (mzInflateModel true) listReaderStep 0 4).2
      .done (fun _ _ _ => rfl) (fun _ _ => rfl) ⟨⟨0, 0, .done⟩, 4, [], 0, 0, []⟩ rfl⟩
